import Mathlib

/-!
Verification of `osquery/database/database.cpp` (storage abstraction and
change-detection layer).  The C++ data model and operations are embedded
shallowly:

* `Row` (C++ `std::map<std::string, std::string>`) is a list of key/value
  pairs; a value of the C++ type corresponds to a list whose keys are
  strictly increasing (`RowWF`), which is the iteration order of `std::map`.
* `QueryData` is `List Row`, `DiffResults` a pair of `QueryData`.
* `boost::property_tree::ptree` is the inductive `Ptree`: every node holds a
  data string and an ordered list of named children.  `put`, `add_child`,
  `get_child` and `count` follow the boost semantics, in particular `put`
  and `add_child` interpret the key as a path split at `.`.
* Statuses (`osquery::Status`) carry an integer code and a message;
  `ok` means code 0.
* C++ exceptions are modelled with `Except`: a function that can let an
  exception escape returns `Except String _`, a `.error` being a thrown
  exception.
-/

/-- `osquery::Status`: an error code (0 = success) and a message. -/
structure Status where
  code : Int
  message : String
deriving DecidableEq, Repr

/-- `Status::ok()` — true when the code is 0. -/
def Status.ok (s : Status) : Bool := s.code == 0

/-- The success status `Status(0, "OK")` used throughout `database.cpp`. -/
def okStatus : Status := ⟨0, "OK"⟩

/-! ### Orders on characters, strings, pairs and rows

`diff` builds `std::multiset<Row>`, which orders rows with `std::map`'s
`operator<`, i.e. `std::lexicographical_compare` over pairs, pairs compared
with `std::pair::operator<` and strings compared bytewise.  (UTF-8 byte
order coincides with code-point order, so comparing Lean `Char`s is
faithful.)  The boolean comparators below transcribe those C++ operators. -/

/-- `operator<` on characters (byte/code-point order). -/
def charLtB (a b : Char) : Bool := decide (a < b)

/-- `std::lexicographical_compare` over a strict comparator `ltB`. -/
def lexLtB (ltB : α → α → Bool) : List α → List α → Bool
  | _, [] => false
  | [], _ :: _ => true
  | x :: xs, y :: ys =>
    if ltB x y then true
    else if ltB y x then false
    else lexLtB ltB xs ys

/-- `std::string::operator<`: lexicographic comparison of the characters. -/
def strLtB (a b : String) : Bool := lexLtB charLtB a.data b.data

/-- `std::pair::operator<`:
`a.first < b.first || (!(b.first < a.first) && a.second < b.second)`. -/
def pairLtB (a b : String × String) : Bool :=
  strLtB a.1 b.1 || (!(strLtB b.1 a.1) && strLtB a.2 b.2)

/-- A row of results: `std::map<std::string, std::string>`, embedded as the
key/value sequence in map iteration order. -/
abbrev Row := List (String × String)

/-- A `Row` list is a genuine `std::map` value when its keys are strictly
increasing (the map's iteration order). -/
def RowWF (r : Row) : Prop := r.Pairwise (fun p q => strLtB p.1 q.1 = true)

/-- `std::map::operator<` = `std::lexicographical_compare` over the pairs. -/
def rowLtB (a b : Row) : Bool := lexLtB pairLtB a b

/-- A query result set: `std::vector<Row>`. -/
abbrev QueryData := List Row

/-- `DiffResults`: the `added` and `removed` subsets of two diffed
`QueryData` result sets. -/
structure DiffResults where
  added : QueryData
  removed : QueryData
deriving DecidableEq, Repr

/-! ### The differ

`diff(old, current)` walks `current`; rows found (by `std::find`, i.e.
structural `operator==`) in `old` are collected into `overlap`, the others
into `added`.  `removed` is then `std::set_difference` of the two
`std::multiset<Row>`s built from `old` and `overlap`.  A `std::multiset`
enumerates its contents in sorted order; since the row order is linear
(equivalent rows are equal), that sorted sequence is exactly
`List.insertionSort` with the reflexive order `RowLe`. -/

/-- The non-strict row order `!(y < x)` used for multiset ordering. -/
def RowLe (x y : Row) : Prop := rowLtB y x = false

instance : DecidableRel RowLe := fun x y => by
  unfold RowLe; infer_instance

/-- The loop over `current`: returns `(overlap, added)` in traversal order. -/
def diffSplit (old : QueryData) : QueryData → QueryData × QueryData
  | [] => ([], [])
  | i :: rest =>
    let (ov, ad) := diffSplit old rest
    if i ∈ old then (i :: ov, ad) else (ov, i :: ad)

/-- `std::set_difference` on two sorted ranges (the libstdc++ algorithm:
emit elements of the first range not matched in the second, advancing past
one element of each on equivalence). -/
def setDifference : QueryData → QueryData → QueryData
  | [], _ => []
  | x :: xs, [] => x :: xs
  | x :: xs, y :: ys =>
    if rowLtB x y
    then x :: setDifference xs (y :: ys)
    else if rowLtB y x
    then setDifference (x :: xs) ys
    else setDifference xs ys
termination_by a b => a.length + b.length

/-- `diff(old, current)` from `database.cpp`. -/
def diff (old current : QueryData) : DiffResults :=
  let (overlap, added) := diffSplit old current
  { added := added
    removed := setDifference (List.insertionSort RowLe old)
                             (List.insertionSort RowLe overlap) }

/-- Multiplicity of a row in a `QueryData` (structural equality). -/
def countRow (x : Row) (l : QueryData) : Nat :=
  l.countP (fun y => decide (y = x))

/-! ### `boost::property_tree::ptree`

A node holds its own data string plus an ordered list of named subtrees.
`put(path, v)` splits the path at `.`, walks the first child matching each
component — creating empty nodes where missing — and sets the final node's
data.  `add_child(path, t)` walks/creates all but the last component the
same way and then always appends a new child.  `count(key)` counts direct
children with the given name; `get_child(path)` walks first matches. -/

inductive Ptree where
  | node (data : String) (children : List (String × Ptree))

/-- Own data of a node (`ptree::data()` / `get_value<std::string>()`). -/
def Ptree.data : Ptree → String
  | .node d _ => d

/-- Ordered named children (`ptree` iteration order). -/
def Ptree.children : Ptree → List (String × Ptree)
  | .node _ c => c

/-- The empty tree `pt::ptree()`. -/
def Ptree.empty : Ptree := .node "" []

/-- Split a character list at `.` (boost path separator). -/
def splitChars : List Char → List (List Char)
  | [] => [[]]
  | c :: rest =>
    if c = '.' then [] :: splitChars rest
    else
      match splitChars rest with
      | [] => [[c]]
      | g :: gs => (c :: g) :: gs

/-- Split a boost path into its components. -/
def splitPath (s : String) : List String :=
  (splitChars s.data).map String.mk

/-- First child with the given name (`ptree::find` semantics). -/
def findChild (k : String) : List (String × Ptree) → Option Ptree
  | [] => none
  | (k', t) :: tl => if k' = k then some t else findChild k tl

/-- Apply `f` to the first child named `k`; if none exists, append a fresh
empty node with name `k` and apply `f` to it (boost path walking). -/
def modifyFirst (k : String) (f : Ptree → Ptree) :
    List (String × Ptree) → List (String × Ptree)
  | [] => [(k, f Ptree.empty)]
  | (k', t) :: tl =>
    if k' = k then (k', f t) :: tl else (k', t) :: modifyFirst k f tl

/-- `put` along an already-split path. -/
def putPath : List String → String → Ptree → Ptree
  | [], v, t => .node v t.children
  | c :: rest, v, t => .node t.data (modifyFirst c (putPath rest v) t.children)

/-- `ptree::put<std::string>(path, value)`. -/
def Ptree.put (t : Ptree) (path value : String) : Ptree :=
  putPath (splitPath path) value t

/-- `add_child` along an already-split path: create/walk intermediates,
always append the final child. -/
def addChildPath : List String → Ptree → Ptree → Ptree
  | [], sub, _ => sub
  | [c], sub, t => .node t.data (t.children ++ [(c, sub)])
  | c :: c2 :: rest, sub, t =>
    .node t.data (modifyFirst c (addChildPath (c2 :: rest) sub) t.children)

/-- `ptree::add_child(path, subtree)`. -/
def Ptree.addChild (t : Ptree) (path : String) (sub : Ptree) : Ptree :=
  addChildPath (splitPath path) sub t

/-- `get_child` along an already-split path (first-match walk). -/
def getPath : List String → Ptree → Option Ptree
  | [], t => some t
  | c :: rest, t =>
    match findChild c t.children with
    | some t' => getPath rest t'
    | none => none

/-- `ptree::get_child(path)` as an `Option` (boost throws when missing;
every call site in `database.cpp` guards with `count`). -/
def Ptree.getChild (t : Ptree) (path : String) : Option Ptree :=
  getPath (splitPath path) t

/-- `ptree::count(key)`: number of direct children with that exact name. -/
def Ptree.count (t : Ptree) (k : String) : Nat :=
  t.children.countP (fun c => decide (c.1 = k))

/-- `ptree::push_back({key, subtree})`. -/
def Ptree.pushBack (t : Ptree) (p : String × Ptree) : Ptree :=
  .node t.data (t.children ++ [p])

/-! ### Serialization of `Row`, `QueryData`, `DiffResults`

Transcribed from `database.cpp`.  The `try`/`catch` around `tree.put` in
`serializeRow` guards a `ptree_bad_data` that the string translator can
never raise, so the embedded function always returns `Status(0, "OK")`;
the `Status` plumbing and early-return structure are kept as in the C++. -/

/-- `serializeRow(r, tree)`: one `put` per map entry, in map order. -/
def serializeRow (r : Row) (tree : Ptree) : Status × Ptree :=
  (okStatus, r.foldl (fun t p => t.put p.1 p.2) tree)

/-- `std::map::operator[]` assignment: ordered insert-or-replace. -/
def mapInsert (k v : String) : Row → Row
  | [] => [(k, v)]
  | (k', v') :: tl =>
    if strLtB k k' then (k, v) :: (k', v') :: tl
    else if strLtB k' k then (k', v') :: mapInsert k v tl
    else (k, v) :: tl

/-- `deserializeRow(tree, r)`: every direct child with a non-empty name
becomes an entry `r[name] = child.data()`. -/
def deserializeRow (tree : Ptree) (r : Row) : Status × Row :=
  (okStatus,
    tree.children.foldl
      (fun m c => if 0 < c.1.length then mapInsert c.1 c.2.data m else m) r)

/-- `serializeQueryData(q, tree)`: serialize each row into a fresh node and
push it back under an empty name, stopping at the first failure. -/
def serializeQueryData : QueryData → Ptree → Status × Ptree
  | [], tree => (okStatus, tree)
  | r :: rest, tree =>
    let (s, rt) := serializeRow r Ptree.empty
    if s.ok then serializeQueryData rest (tree.pushBack ("", rt))
    else (s, tree)

/-- The loop of `deserializeQueryData` over the child list. -/
def deserializeQueryDataAux : List (String × Ptree) → QueryData →
    Status × QueryData
  | [], qd => (okStatus, qd)
  | c :: tl, qd =>
    let (s, r) := deserializeRow c.2 []
    if s.ok then deserializeQueryDataAux tl (qd ++ [r])
    else (s, qd)

/-- `deserializeQueryData(tree, qd)`: deserialize each child as a fresh row
and append it. -/
def deserializeQueryData (tree : Ptree) (qd : QueryData) : Status × QueryData :=
  deserializeQueryDataAux tree.children qd

/-- `serializeDiffResults(d, tree)`: serialize `added` and `removed` into
fresh nodes added as the children `"added"` and `"removed"`. -/
def serializeDiffResults (d : DiffResults) (tree : Ptree) : Status × Ptree :=
  let (s1, addedT) := serializeQueryData d.added Ptree.empty
  if s1.ok = false then (s1, tree)
  else
    let tree1 := tree.addChild "added" addedT
    let (s2, removedT) := serializeQueryData d.removed Ptree.empty
    if s2.ok = false then (s2, tree1)
    else (okStatus, tree1.addChild "removed" removedT)

/-- `deserializeDiffResults(tree, dr)`: a present `"added"`/`"removed"`
child is deserialized and appended to the corresponding list; a missing
child is skipped (treated as empty).  The inner `none` branches are
unreachable because each `get_child` is guarded by `count > 0`. -/
def deserializeDiffResults (tree : Ptree) (dr : DiffResults) :
    Status × DiffResults :=
  let step1 : Status × DiffResults :=
    if 0 < tree.count "added" then
      match tree.getChild "added" with
      | some sub =>
        let (s, qa) := deserializeQueryData sub dr.added
        (s, { dr with added := qa })
      | none => (okStatus, dr)
    else (okStatus, dr)
  if step1.1.ok = false then step1
  else
    let dr1 := step1.2
    if 0 < tree.count "removed" then
      match tree.getChild "removed" with
      | some sub =>
        let (s, qr) := deserializeQueryData sub dr1.removed
        (s, { dr1 with removed := qr })
      | none => (okStatus, dr1)
    else (okStatus, dr1)

/-- A column name survives boost path interpretation untouched exactly when
it is non-empty and contains no path separator `.`. -/
def goodKey (k : String) : Prop := 0 < k.length ∧ '.' ∉ k.data

instance (k : String) : Decidable (goodKey k) := by
  unfold goodKey; infer_instance

instance (r : Row) : Decidable (RowWF r) := by
  unfold RowWF; infer_instance

/-! ### `addUniqueRowToQueryData` -/

/-- `addUniqueRowToQueryData(q, r)`: append `r` only when no
structurally-equal row is already present (`std::find`); returns whether an
insertion occurred, plus the resulting sequence. -/
def addUniqueRowToQueryData (q : QueryData) (r : Row) : Bool × QueryData :=
  if r ∈ q then (false, q) else (true, q ++ [r])

/-! ### `QueryLogItem` serialization

`FLAGS_decorations_top_level` is passed explicitly as `topLevel`.  In the
C++, the nested-decorations branch first adds an empty `"decorations"`
child and then writes through a reference obtained by `get_child`; no call
site reaches `addLegacyFieldsAndDecorations` with a pre-existing
`"decorations"` child, so building the child first and adding it once is
the same tree. -/

/-- `QueryLogItem`: one record per evaluated scheduled query. -/
structure QueryLogItem where
  name : String
  identifier : String
  calendar_time : String
  time : Int
  decorations : Row
  results : DiffResults
  snapshot_results : QueryData

/-- `addLegacyFieldsAndDecorations(item, tree)`. -/
def addLegacyFieldsAndDecorations (topLevel : Bool) (item : QueryLogItem)
    (tree : Ptree) : Ptree :=
  let t := (((tree.put "name" item.name).put
    "hostIdentifier" item.identifier).put
    "calendarTime" item.calendar_time).put "unixTime" (toString item.time)
  if 0 < item.decorations.length then
    if topLevel then
      item.decorations.foldl (fun t p => t.put p.1 p.2) t
    else
      t.addChild "decorations"
        (item.decorations.foldl (fun t p => t.put p.1 p.2) Ptree.empty)
  else t

/-- `serializeQueryLogItem(item, tree)`: diff payload when `added` or
`removed` is non-empty, snapshot payload (plus `action = "snapshot"`)
otherwise, then the legacy fields and decorations. -/
def serializeQueryLogItem (topLevel : Bool) (item : QueryLogItem)
    (tree : Ptree) : Status × Ptree :=
  if 0 < item.results.added.length || 0 < item.results.removed.length then
    let sd := serializeDiffResults item.results Ptree.empty
    if sd.1.ok = false then (sd.1, tree)
    else
      (okStatus,
        addLegacyFieldsAndDecorations topLevel item
          (tree.addChild "diffResults" sd.2))
  else
    let sq := serializeQueryData item.snapshot_results Ptree.empty
    if sq.1.ok = false then (sq.1, tree)
    else
      (okStatus,
        addLegacyFieldsAndDecorations topLevel item
          ((tree.addChild "snapshot" sq.2).put "action" "snapshot"))

/-- `serializeEvent(item, event, tree)`: legacy fields and decorations, then
a `"columns"` child rebuilt from the event subtree's children
(`columns.put(name, child.get_value<string>())`). -/
def serializeEvent (topLevel : Bool) (item : QueryLogItem) (event : Ptree)
    (tree : Ptree) : Status × Ptree :=
  let t := addLegacyFieldsAndDecorations topLevel item tree
  let columns := event.children.foldl (fun c p => c.put p.1 p.2.data) Ptree.empty
  (okStatus, t.addChild "columns" columns)

/-- `serializeQueryLogItemAsEvents(i, tree)`: serialize the DiffResults,
then push one event per row of each action child, tagged with the action
name.  (The C++ ignores `serializeEvent`'s status, as transcribed.) -/
def serializeQueryLogItemAsEvents (topLevel : Bool) (item : QueryLogItem)
    (tree : Ptree) : Status × Ptree :=
  let sd := serializeDiffResults item.results Ptree.empty
  if sd.1.ok then
    (okStatus,
      sd.2.children.foldl (fun t ac =>
        ac.2.children.foldl (fun t rc =>
          t.pushBack
            ("", (serializeEvent topLevel item rc.2 Ptree.empty).2.put
              "action" ac.1)) t) tree)
  else (sd.1, tree)

/-- The event document the spec describes for one row of one action
category: the legacy fields and decorations, a `"columns"` child holding
that row's column/value pairs directly, and an `"action"` field set to the
category name. -/
def eventDocSpec (topLevel : Bool) (item : QueryLogItem) (cat : String)
    (r : Row) : Ptree :=
  ((addLegacyFieldsAndDecorations topLevel item Ptree.empty).addChild
      "columns" (.node "" (r.map (fun p => (p.1, Ptree.node p.2 []))))).put
    "action" cat

/-- A diff-mode item whose single added row has a column name containing
the boost path separator. -/
def eventItemDot : QueryLogItem :=
  { name := "q", identifier := "h", calendar_time := "t", time := 0,
    decorations := [], results := ⟨[[("a.b", "1")]], []⟩,
    snapshot_results := [] }

/-- A diff-mode item with one well-formed added row and one removed row. -/
def eventItemPlain : QueryLogItem :=
  { name := "q", identifier := "h", calendar_time := "t", time := 5,
    decorations := [("d", "v")], results := ⟨[[("a", "1")]], [[("b", "2")]]⟩,
    snapshot_results := [] }

/-- A key free of the boost path separator (may be empty). -/
def dotFree (k : String) : Prop := '.' ∉ k.data

instance (k : String) : Decidable (dotFree k) := by
  unfold dotFree; infer_instance

/-- An item with empty diff and snapshot whose decorations carry the key
`"action"`, flattened to the top level. -/
def logItemDecAction : QueryLogItem :=
  { name := "", identifier := "", calendar_time := "", time := 0,
    decorations := [("action", "boo")], results := ⟨[], []⟩,
    snapshot_results := [] }

/-- A snapshot-mode item with a harmless decoration. -/
def logItemSnap : QueryLogItem :=
  { name := "n", identifier := "h", calendar_time := "c", time := 1,
    decorations := [("d", "v")], results := ⟨[], []⟩,
    snapshot_results := [[("s", "1")]] }

/-! ### `DatabasePlugin::checkDB`

`setUp`, `tearDown` and the `read_only_` member belong to the concrete
backend; one run of `checkDB` is determined by their outcomes, collected in
`CheckDBEnv`.  A backend fault raised as a C++ exception is an `.error`.
`checkDB` returns a triple: the boolean result, the value of the shared
`kCheckingDB` indicator while the self-test body runs, and its value after
the function returns. -/

structure CheckDBEnv where
  requireWrite : Bool
  readOnly : Bool
  setUpResult : Except String Status
  tearDownResult : Except String Unit

/-- Whether an `Except` outcome is a thrown exception. -/
def exceptFailed : Except ε α → Bool
  | .error _ => true
  | .ok _ => false

/-- Whether an `Except` outcome is a normal return. -/
def exceptOk : Except ε α → Bool
  | .error _ => false
  | .ok _ => true

/-- `DatabasePlugin::checkDB`, transcribed line by line: set `kCheckingDB`,
run `setUp`, clear `result` when write is required but the handle is
read-only, run `tearDown`, then `result = status.ok()` (overwriting the
read-only verdict); any exception is caught and makes the result false;
`kCheckingDB` is cleared before returning on every path. -/
def DatabasePlugin.checkDB (env : CheckDBEnv) : Bool × Bool × Bool :=
  let checking := true
  match env.setUpResult with
  | .error _ => (false, checking, false)
  | .ok status =>
    let result := true
    let result := if env.requireWrite && env.readOnly then false else result
    match env.tearDownResult with
    | .error _ => (false, checking, false)
    | .ok _ =>
      let result := status.ok
      (result, checking, false)

/-- The run that decides C4: write-required mode, read-only handle,
successful `setUp`, quiet `tearDown`. -/
def checkDBEnvBug : CheckDBEnv :=
  { requireWrite := true, readOnly := true,
    setUpResult := .ok okStatus, tearDownResult := .ok () }

/-- The run that exercises C9's exception path: `setUp` throws. -/
def checkDBEnvThrow : CheckDBEnv :=
  { requireWrite := false, readOnly := false,
    setUpResult := .error "io error", tearDownResult := .ok () }

/-! ### `DatabasePlugin::call`

The request and each response entry are `std::map<std::string,
std::string>` values, embedded as key/value lists queried with `lookup`
(`count` = `isSome`, `at` = the looked-up value, throwing when absent).
The backend's virtual `get`/`put`/`remove`/`scan` are supplied as pure
functions returning `Status` (per the Store Contract, backend faults
arrive as failure statuses).  `call` returns, besides the `Status` and the
entries appended to the response, the list of backend operations invoked —
so "no side effect" is an empty effect list.  A C++ exception escaping
`call` (`map::at` on a missing `prefix`, `std::stoul` on a bad `max`) is
an `.error`. -/

structure DBBackend where
  get : String → String → Status × String
  put : String → String → String → Status
  remove : String → String → Status
  scan : String → String → Nat → Status × List String

/-- One invoked backend operation. -/
inductive DBEffect where
  | getE (domain key : String)
  | putE (domain key value : String)
  | removeE (domain key : String)
  | scanE (domain pfx : String) (maxKeys : Nat)
deriving DecidableEq, Repr

/-- A request or response-entry map. -/
abbrev PluginRequest := List (String × String)

/-- The response: a list of single-entry maps. -/
abbrev PluginResponse := List (List (String × String))

/-- `std::stoul(s)` in base 10: skip whitespace, optional sign, digits;
`none` models a thrown `invalid_argument` (no digits) or `out_of_range`
(beyond `unsigned long`); a negative numeral wraps modulo `2^64`. -/
def stoulModel (s : String) : Option Nat :=
  let cs := s.data.dropWhile (fun c => c.isWhitespace)
  let neg : Bool := match cs with | '-' :: _ => true | _ => false
  let cs2 := match cs with | '-' :: r => r | '+' :: r => r | r => r
  let digits := cs2.takeWhile (fun c => c.isDigit)
  if digits.isEmpty then none
  else
    let v := digits.foldl (fun a c => a * 10 + (c.toNat - 48)) 0
    if 2 ^ 64 - 1 < v then none
    else some (if neg then (2 ^ 64 - v % 2 ^ 64) % 2 ^ 64 else v)

/-- `DatabasePlugin::call(request, response)`. -/
def DatabasePlugin.call (b : DBBackend) (request : PluginRequest) :
    Except String (Status × PluginResponse × List DBEffect) :=
  if (request.lookup "action").isSome = false then
    .ok (⟨1, "Database plugin must include a request action"⟩, [], [])
  else
    let domain := (request.lookup "domain").getD ""
    let key := (request.lookup "key").getD ""
    let action := (request.lookup "action").getD ""
    if action = "get" then
      let gv := b.get domain key
      .ok (gv.1, [[("v", gv.2)]], [.getE domain key])
    else if action = "put" then
      if (request.lookup "value").isSome = false then
        .ok (⟨1, "Database plugin put action requires a value"⟩, [], [])
      else
        let v := (request.lookup "value").getD ""
        .ok (b.put domain key v, [], [.putE domain key v])
    else if action = "remove" then
      .ok (b.remove domain key, [], [.removeE domain key])
    else if action = "scan" then
      let maxStep : Except String Nat :=
        if (request.lookup "max").isSome then
          match stoulModel ((request.lookup "max").getD "") with
          | some m => .ok m
          | none => .error "stoul: invalid argument or out of range"
        else .ok 0
      match maxStep with
      | .error e => .error e
      | .ok maxKeys =>
        match request.lookup "prefix" with
        | none => .error "map::at: key not found"
        | some pfx =>
          let sk := b.scan domain pfx maxKeys
          .ok (sk.1, sk.2.map (fun k => [("k", k)]), [.scanE domain pfx maxKeys])
    else
      .ok (⟨1, "Unknown database plugin action"⟩, [], [])

/-- A backend whose operations all succeed and return nothing. -/
def noopBackend : DBBackend :=
  { get := fun _ _ => (okStatus, ""), put := fun _ _ _ => okStatus,
    remove := fun _ _ => okStatus, scan := fun _ _ _ => (okStatus, []) }

/-! #### Strict-order facts for the comparators -/

theorem charLtB_irrefl (a : Char) : charLtB a a = false := by
  simp [charLtB]

theorem charLtB_trans {a b c : Char} (h1 : charLtB a b = true)
    (h2 : charLtB b c = true) : charLtB a c = true := by
  simp only [charLtB, decide_eq_true_eq] at *
  exact lt_trans h1 h2

theorem charLtB_conn {a b : Char} (h1 : charLtB a b = false)
    (h2 : charLtB b a = false) : a = b := by
  simp only [charLtB, decide_eq_false_iff_not] at *
  exact le_antisymm (le_of_not_lt h2) (le_of_not_lt h1)

theorem lexLtB_irrefl (ltB : α → α → Bool)
    (hirr : ∀ a, ltB a a = false) : ∀ l, lexLtB ltB l l = false
  | [] => rfl
  | x :: xs => by
    simp [lexLtB, hirr x, lexLtB_irrefl ltB hirr xs]

theorem lexLtB_trans (ltB : α → α → Bool)
    (htr : ∀ {a b c}, ltB a b = true → ltB b c = true → ltB a c = true)
    (hconn : ∀ {a b}, ltB a b = false → ltB b a = false → a = b) :
    ∀ {l1 l2 l3 : List α}, lexLtB ltB l1 l2 = true → lexLtB ltB l2 l3 = true →
      lexLtB ltB l1 l3 = true := by
  intro l1
  induction l1 with
  | nil =>
    intro l2 l3 h12 h23
    cases l2 with
    | nil => simp [lexLtB] at h12
    | cons y ys =>
      cases l3 with
      | nil => simp [lexLtB] at h23
      | cons z zs => simp [lexLtB]
  | cons x xs ih =>
    intro l2 l3 h12 h23
    cases l2 with
    | nil => simp [lexLtB] at h12
    | cons y ys =>
      cases l3 with
      | nil => simp [lexLtB] at h23
      | cons z zs =>
        simp only [lexLtB] at h12 h23 ⊢
        by_cases hxy : ltB x y = true
        · -- x < y
          by_cases hyz : ltB y z = true
          · simp [htr hxy hyz]
          · by_cases hzy : ltB z y = true
            · simp [hyz, hzy] at h23
            · -- y = z
              have : y = z := hconn (by simpa using hyz) (by simpa using hzy)
              subst this
              simp [hxy]
        · by_cases hyx : ltB y x = true
          · simp [hxy, hyx] at h12
          · -- x = y
            have : x = y := hconn (by simpa using hxy) (by simpa using hyx)
            subst this
            by_cases hxz : ltB x z = true
            · simp [hxz]
            · by_cases hzx : ltB z x = true
              · simp [hxz, hzx] at h23
              · simp only [hxz, hzx, if_neg, Bool.false_eq_true, if_false] at h12 h23 ⊢
                simp only [if_neg (by simp [hxy] : ¬ltB x x = true)] at h12
                exact ih h12 h23

theorem lexLtB_conn (ltB : α → α → Bool)
    (hconn : ∀ {a b}, ltB a b = false → ltB b a = false → a = b) :
    ∀ {l1 l2 : List α}, lexLtB ltB l1 l2 = false → lexLtB ltB l2 l1 = false →
      l1 = l2 := by
  intro l1
  induction l1 with
  | nil =>
    intro l2 h12 _
    cases l2 with
    | nil => rfl
    | cons y ys => simp [lexLtB] at h12
  | cons x xs ih =>
    intro l2 h12 h21
    cases l2 with
    | nil => simp [lexLtB] at h21
    | cons y ys =>
      simp only [lexLtB] at h12 h21
      by_cases hxy : ltB x y = true
      · simp [hxy] at h12
      · by_cases hyx : ltB y x = true
        · simp [hxy, hyx] at h21
        · have hxyeq : x = y := hconn (by simpa using hxy) (by simpa using hyx)
          subst hxyeq
          simp only [if_neg (by simp [hxy] : ¬ltB x x = true)] at h12 h21
          exact congrArg (x :: ·) (ih h12 h21)

theorem strLtB_irrefl (a : String) : strLtB a a = false :=
  lexLtB_irrefl charLtB charLtB_irrefl a.data

theorem strLtB_trans {a b c : String} (h1 : strLtB a b = true)
    (h2 : strLtB b c = true) : strLtB a c = true :=
  lexLtB_trans charLtB
    (fun h1 h2 => charLtB_trans h1 h2) (fun h1 h2 => charLtB_conn h1 h2) h1 h2

theorem strLtB_conn {a b : String} (h1 : strLtB a b = false)
    (h2 : strLtB b a = false) : a = b := by
  have := lexLtB_conn charLtB (fun h1 h2 => charLtB_conn h1 h2) h1 h2
  cases a; cases b; exact congrArg String.mk this

theorem strLtB_asymm {a b : String} (h : strLtB a b = true) :
    strLtB b a = false := by
  by_contra hc
  have hba : strLtB b a = true := by
    cases h2 : strLtB b a with
    | false => exact absurd h2 hc
    | true => rfl
  have := strLtB_trans h hba
  rw [strLtB_irrefl] at this
  exact Bool.false_ne_true this

theorem pairLtB_irrefl (a : String × String) : pairLtB a a = false := by
  simp [pairLtB, strLtB_irrefl]

theorem pairLtB_trans {a b c : String × String} (h1 : pairLtB a b = true)
    (h2 : pairLtB b c = true) : pairLtB a c = true := by
  simp only [pairLtB, Bool.or_eq_true, Bool.and_eq_true, Bool.not_eq_true'] at *
  rcases h1 with h1 | ⟨h1a, h1b⟩
  · rcases h2 with h2 | ⟨h2a, h2b⟩
    · exact Or.inl (strLtB_trans h1 h2)
    · -- a.1 < b.1 and b.1 = c.1 (both directions false)
      cases h2c : strLtB b.1 c.1 with
      | true => exact Or.inl (strLtB_trans h1 h2c)
      | false =>
        have : b.1 = c.1 := strLtB_conn h2c h2a
        exact Or.inl (this ▸ h1)
  · rcases h2 with h2 | ⟨h2a, h2b⟩
    · cases h1c : strLtB a.1 b.1 with
      | true => exact Or.inl (strLtB_trans h1c h2)
      | false =>
        have : a.1 = b.1 := strLtB_conn h1c h1a
        exact Or.inl (this ▸ h2)
    · cases h1c : strLtB a.1 b.1 with
      | true =>
        cases h2c : strLtB b.1 c.1 with
        | true => exact Or.inl (strLtB_trans h1c h2c)
        | false =>
          have : b.1 = c.1 := strLtB_conn h2c h2a
          exact Or.inl (this ▸ h1c)
      | false =>
        have hab : a.1 = b.1 := strLtB_conn h1c h1a
        refine Or.inr ⟨hab ▸ h2a, strLtB_trans h1b h2b⟩

theorem pairLtB_conn {a b : String × String} (h1 : pairLtB a b = false)
    (h2 : pairLtB b a = false) : a = b := by
  simp only [pairLtB, Bool.or_eq_false_iff, Bool.and_eq_false_iff,
    Bool.not_eq_false'] at h1 h2
  obtain ⟨h1a, h1b⟩ := h1
  obtain ⟨h2a, h2b⟩ := h2
  have hfst : a.1 = b.1 := strLtB_conn h1a h2a
  rcases h1b with h1b | h1b
  · exact absurd h1b (by simp [h2a])
  · rcases h2b with h2b | h2b
    · exact absurd h2b (by simp [h1a])
    · have hsnd : a.2 = b.2 := strLtB_conn h1b h2b
      exact Prod.ext hfst hsnd

theorem rowLtB_irrefl (r : Row) : rowLtB r r = false :=
  lexLtB_irrefl pairLtB pairLtB_irrefl r

theorem rowLtB_trans {a b c : Row} (h1 : rowLtB a b = true)
    (h2 : rowLtB b c = true) : rowLtB a c = true :=
  lexLtB_trans pairLtB
    (fun h1 h2 => pairLtB_trans h1 h2) (fun h1 h2 => pairLtB_conn h1 h2) h1 h2

theorem rowLtB_conn {a b : Row} (h1 : rowLtB a b = false)
    (h2 : rowLtB b a = false) : a = b :=
  lexLtB_conn pairLtB (fun h1 h2 => pairLtB_conn h1 h2) h1 h2

theorem rowLtB_asymm {a b : Row} (h : rowLtB a b = true) :
    rowLtB b a = false := by
  by_contra hc
  have hba : rowLtB b a = true := by
    cases h2 : rowLtB b a with
    | false => exact absurd h2 hc
    | true => rfl
  have := rowLtB_trans h hba
  rw [rowLtB_irrefl] at this
  exact Bool.false_ne_true this

instance : IsTotal Row RowLe where
  total x y := by
    by_cases h : rowLtB y x = false
    · exact Or.inl h
    · have hxy : rowLtB y x = true := by
        cases h2 : rowLtB y x with
        | false => exact absurd h2 h
        | true => rfl
      exact Or.inr (rowLtB_asymm hxy)

instance : IsTrans Row RowLe where
  trans x y z hxy hyz := by
    unfold RowLe at *
    by_contra hc
    have hzx : rowLtB z x = true := by
      cases h2 : rowLtB z x with
      | false => exact absurd h2 hc
      | true => rfl
    cases h2 : rowLtB x y with
    | true =>
      have := rowLtB_trans hzx h2
      rw [hyz] at this
      exact Bool.false_ne_true this
    | false =>
      have : x = y := rowLtB_conn h2 hxy
      subst this
      rw [hyz] at hzx
      exact Bool.false_ne_true hzx

theorem countRow_nil (x : Row) : countRow x [] = 0 := rfl

theorem countRow_cons (x y : Row) (l : QueryData) :
    countRow x (y :: l) = countRow x l + (if y = x then 1 else 0) := by
  simp [countRow, List.countP_cons]

theorem countRow_pos_iff_mem (x : Row) (l : QueryData) :
    0 < countRow x l ↔ x ∈ l := by
  unfold countRow
  rw [List.countP_pos_iff]
  constructor
  · rintro ⟨a, ha, hax⟩
    have : a = x := of_decide_eq_true hax
    exact this ▸ ha
  · intro h
    exact ⟨x, h, by simp⟩

theorem countRow_perm {l l' : QueryData} (h : l.Perm l') (x : Row) :
    countRow x l = countRow x l' :=
  h.countP_eq _

/-- If `x < y` and `y :: ys` is sorted upward, `x` does not occur in it. -/
theorem not_mem_of_lt_sorted {x y : Row} {ys : QueryData}
    (hlt : rowLtB x y = true) (hs : List.Pairwise RowLe (y :: ys)) :
    x ∉ y :: ys := by
  intro hmem
  rcases List.mem_cons.mp hmem with h | h
  · subst h
    rw [rowLtB_irrefl] at hlt
    exact Bool.false_ne_true hlt
  · have hle : RowLe y x := (List.pairwise_cons.mp hs).1 x h
    unfold RowLe at hle
    rw [hle] at hlt
    exact Bool.false_ne_true hlt

theorem countRow_eq_zero_of_not_mem {x : Row} {l : QueryData}
    (h : x ∉ l) : countRow x l = 0 := by
  induction l with
  | nil => rfl
  | cons y ys ih =>
    rw [countRow_cons, ih (fun hm => h (List.mem_cons_of_mem y hm))]
    have : y ≠ x := fun he => h (he ▸ List.mem_cons_self y ys)
    simp [this]

/-- Multiplicities in `std::set_difference` of sorted ranges: per-row count
subtraction (truncated at zero). -/
theorem countRow_setDifference :
    ∀ (a b : QueryData), List.Pairwise RowLe a → List.Pairwise RowLe b →
      ∀ x, countRow x (setDifference a b) = countRow x a - countRow x b := by
  intro a b
  induction a, b using setDifference.induct with
  | case1 b =>
    intro _ _ x
    simp [setDifference, countRow_nil]
  | case2 x xs =>
    intro _ _ z
    simp [setDifference, countRow_nil]
  | case3 x xs y ys hxy ih =>
    intro ha hb z
    rw [setDifference, if_pos hxy, countRow_cons, countRow_cons,
      ih (List.pairwise_cons.mp ha).2 hb z]
    by_cases hz : z = x
    · subst hz
      have hnot : countRow z (y :: ys) = 0 :=
        countRow_eq_zero_of_not_mem (not_mem_of_lt_sorted hxy hb)
      rw [hnot]
      simp
    · have : x ≠ z := fun h => hz h.symm
      simp only [this, if_false]
      omega
  | case4 x xs y ys hxy hyx ih =>
    intro ha hb z
    rw [setDifference, if_neg (by simp [hxy]), if_pos hyx,
      ih ha (List.pairwise_cons.mp hb).2 z]
    rw [countRow_cons z y ys]
    by_cases hz : z = y
    · subst hz
      have hnot : countRow z (x :: xs) = 0 :=
        countRow_eq_zero_of_not_mem (not_mem_of_lt_sorted hyx ha)
      rw [hnot]
      omega
    · have : y ≠ z := fun h => hz h.symm
      simp only [this, if_false]
      omega
  | case5 x xs y ys hxy hyx ih =>
    intro ha hb z
    have hxyeq : x = y := rowLtB_conn (by simpa using hxy) (by simpa using hyx)
    subst hxyeq
    rw [setDifference, if_neg (by simp [hxy]), if_neg (by simp [hyx]),
      ih (List.pairwise_cons.mp ha).2 (List.pairwise_cons.mp hb).2 z,
      countRow_cons, countRow_cons]
    omega

theorem mem_setDifference :
    ∀ {a b : QueryData} {x : Row}, x ∈ setDifference a b → x ∈ a := by
  intro a b
  induction a, b using setDifference.induct with
  | case1 b => intro x h; simp [setDifference] at h
  | case2 x xs => intro z h; simpa [setDifference] using h
  | case3 x xs y ys hxy ih =>
    intro z h
    rw [setDifference, if_pos hxy] at h
    rcases List.mem_cons.mp h with h | h
    · exact h ▸ List.mem_cons_self x xs
    · exact List.mem_cons_of_mem x (ih h)
  | case4 x xs y ys hxy hyx ih =>
    intro z h
    rw [setDifference, if_neg (by simp [hxy]), if_pos hyx] at h
    exact ih h
  | case5 x xs y ys hxy hyx ih =>
    intro z h
    rw [setDifference, if_neg (by simp [hxy]), if_neg (by simp [hyx])] at h
    exact List.mem_cons_of_mem x (ih h)

/-- Rows of `added` never occur in `old`. -/
theorem diffSplit_added_not_mem (old : QueryData) :
    ∀ (current : QueryData) {x : Row},
      x ∈ (diffSplit old current).2 → x ∉ old := by
  intro current
  induction current with
  | nil => intro x h; simp [diffSplit] at h
  | cons i rest ih =>
    intro x h
    rw [diffSplit] at h
    by_cases hmem : i ∈ old
    · simp only [hmem, if_true] at h
      exact ih h
    · simp only [hmem, if_false] at h
      rcases List.mem_cons.mp h with h | h
      · exact h ▸ hmem
      · exact ih h

/-- Multiplicities in `overlap`: a row of `old` is retained once per
occurrence in `current`; a row absent from `old` is never retained. -/
theorem diffSplit_overlap_count (old : QueryData) :
    ∀ (current : QueryData) (x : Row),
      countRow x (diffSplit old current).1 =
        if x ∈ old then countRow x current else 0 := by
  intro current
  induction current with
  | nil => intro x; simp [diffSplit, countRow_nil]
  | cons i rest ih =>
    intro x
    rw [diffSplit]
    by_cases hmem : i ∈ old
    · simp only [hmem, if_true]
      rw [countRow_cons, countRow_cons, ih x]
      by_cases hx : x ∈ old
      · simp [hx]
      · have : i ≠ x := fun he => hx (he ▸ hmem)
        simp [hx, this]
    · simp only [hmem, if_false]
      rw [ih x, countRow_cons]
      by_cases hx : x ∈ old
      · have : i ≠ x := fun he => hmem (he ▸ hx)
        simp [hx, this]
      · simp [hx]

/-- C1: for every pair of snapshots `old` and `current`, every row of
`diff(old, current).added` was absent from `old` (structural equality:
multiplicity zero), and every row of `removed` was present in `old` and has
no structurally-equal matching instance in `current` — respecting
multiplicity, `current` contains strictly fewer matching instances than
`old`, so at least one instance of the row is unmatched. -/
theorem claim_C1_diff_invariant (old current : QueryData) :
    (∀ r ∈ (diff old current).added, countRow r old = 0) ∧
    (∀ r ∈ (diff old current).removed,
      0 < countRow r old ∧ countRow r current < countRow r old) := by
  constructor
  · intro r hr
    exact countRow_eq_zero_of_not_mem
      (diffSplit_added_not_mem old current hr)
  · intro r hr
    have hsOld : List.Pairwise RowLe (List.insertionSort RowLe old) :=
      List.sorted_insertionSort RowLe old
    have hsOv : List.Pairwise RowLe
        (List.insertionSort RowLe (diffSplit old current).1) :=
      List.sorted_insertionSort RowLe _
    have hcount := countRow_setDifference _ _ hsOld hsOv r
    have hpos : 0 < countRow r
        (setDifference (List.insertionSort RowLe old)
          (List.insertionSort RowLe (diffSplit old current).1)) := by
      rw [countRow_pos_iff_mem]
      simpa [diff] using hr
    rw [hcount, countRow_perm (List.perm_insertionSort RowLe old),
      countRow_perm (List.perm_insertionSort RowLe (diffSplit old current).1)]
      at hpos
    have hov := diffSplit_overlap_count old current r
    have holdpos : 0 < countRow r old := by omega
    have hmem : r ∈ old := (countRow_pos_iff_mem r old).mp holdpos
    rw [if_pos hmem] at hov
    omega

/-- C2: if the old snapshot holds two structurally-identical copies of a row
and the new snapshot exactly one matching instance, the diff removes exactly
one copy and adds nothing. -/
theorem claim_C2_diff_multiplicity (r : Row) :
    diff [r, r] [r] = { added := [], removed := [r] } := by
  have hmem : r ∈ [r, r] := List.mem_cons_self r [r]
  simp [diff, diffSplit, hmem, List.insertionSort, List.orderedInsert,
    setDifference, RowLe, rowLtB_irrefl]

/-! ### Round-trip facts for the serializers -/

theorem splitChars_no_dot {l : List Char} (h : '.' ∉ l) :
    splitChars l = [l] := by
  induction l with
  | nil => rfl
  | cons c rest ih =>
    have hc : c ≠ '.' := fun he =>
      h (he ▸ List.mem_cons_self c rest)
    have hrest : '.' ∉ rest := fun hm => h (List.mem_cons_of_mem c hm)
    rw [splitChars, if_neg hc, ih hrest]

theorem splitPath_single {k : String} (h : goodKey k) : splitPath k = [k] := by
  unfold splitPath
  rw [splitChars_no_dot h.2]
  cases k
  rfl

theorem findChild_append_none {x : String} {l1 l2 : List (String × Ptree)}
    (h1 : findChild x l1 = none) (h2 : findChild x l2 = none) :
    findChild x (l1 ++ l2) = none := by
  induction l1 with
  | nil => simpa using h2
  | cons p tl ih =>
    rw [findChild] at h1
    by_cases hp : p.1 = x
    · rw [if_pos hp] at h1; exact absurd h1 (by simp)
    · rw [List.cons_append, findChild, if_neg hp]
      rw [if_neg hp] at h1
      exact ih h1

theorem findChild_singleton_none {x k : String} {t : Ptree} (h : k ≠ x) :
    findChild x [(k, t)] = none := by
  simp [findChild, h]

theorem modifyFirst_absent {k : String} {f : Ptree → Ptree}
    {l : List (String × Ptree)} (h : findChild k l = none) :
    modifyFirst k f l = l ++ [(k, f Ptree.empty)] := by
  induction l with
  | nil => rfl
  | cons p tl ih =>
    rw [findChild] at h
    by_cases hp : p.1 = k
    · rw [if_pos hp] at h; exact absurd h (by simp)
    · rw [if_neg hp] at h
      cases p with
      | mk k' t' =>
        rw [modifyFirst, if_neg hp, ih h, List.cons_append]

/-- `put` of a good key absent from the children appends a fresh leaf. -/
theorem put_absent {t : Ptree} {k v : String} (hg : goodKey k)
    (h : findChild k t.children = none) :
    t.put k v = .node t.data (t.children ++ [(k, .node v [])]) := by
  rw [Ptree.put, splitPath_single hg, putPath, modifyFirst_absent h]
  rfl

/-- The `serializeRow` loop on a tree sharing no key with the row: each map
entry becomes an appended leaf child, in map order. -/
theorem putFold (r : Row) :
    ∀ t : Ptree, (∀ p ∈ r, goodKey p.1) →
      r.Pairwise (fun p q => p.1 ≠ q.1) →
      (∀ p ∈ r, findChild p.1 t.children = none) →
      r.foldl (fun t p => t.put p.1 p.2) t =
        .node t.data (t.children ++ r.map (fun p => (p.1, Ptree.node p.2 []))) := by
  induction r with
  | nil => intro t _ _ _; cases t; simp [Ptree.data, Ptree.children]
  | cons p rest ih =>
    intro t hg hnd hdis
    have hp : t.put p.1 p.2 = .node t.data (t.children ++ [(p.1, .node p.2 [])]) :=
      put_absent (hg p (List.mem_cons_self p rest))
        (hdis p (List.mem_cons_self p rest))
    have ihr := ih (.node t.data (t.children ++ [(p.1, .node p.2 [])]))
      (fun q hq => hg q (List.mem_cons_of_mem p hq))
      (List.pairwise_cons.mp hnd).2
      (fun q hq => by
        refine findChild_append_none (hdis q (List.mem_cons_of_mem p hq)) ?_
        exact findChild_singleton_none ((List.pairwise_cons.mp hnd).1 q hq))
    rw [List.foldl_cons, hp, ihr]
    simp [Ptree.children, Ptree.data, List.append_assoc]

/-- `RowWF` keys are pairwise distinct. -/
theorem RowWF_keys_ne {r : Row} (h : RowWF r) :
    r.Pairwise (fun p q => p.1 ≠ q.1) := by
  refine h.imp ?_
  intro p q hpq he
  rw [he] at hpq
  rw [strLtB_irrefl] at hpq
  exact Bool.false_ne_true hpq

/-- Serializing a well-formed row with good keys yields exactly one leaf
child per map entry, in map order. -/
theorem serializeRow_structure {r : Row} (hwf : RowWF r)
    (hg : ∀ p ∈ r, goodKey p.1) :
    (serializeRow r Ptree.empty).2 =
      .node "" (r.map (fun p => (p.1, Ptree.node p.2 []))) := by
  unfold serializeRow
  rw [putFold r Ptree.empty hg (RowWF_keys_ne hwf) (fun p _ => rfl)]
  rfl

theorem mapInsert_append {k v : String} {m : Row}
    (hlt : ∀ p ∈ m, strLtB p.1 k = true) :
    mapInsert k v m = m ++ [(k, v)] := by
  induction m with
  | nil => rfl
  | cons p tl ih =>
    have hpk : strLtB p.1 k = true := hlt p (List.mem_cons_self p tl)
    cases p with
    | mk k' v' =>
      rw [mapInsert, if_neg (by simp [strLtB_asymm hpk]),
        if_pos hpk, ih (fun q hq => hlt q (List.mem_cons_of_mem _ hq)),
        List.cons_append]

/-- Folding the `deserializeRow` body over serialized leaf children rebuilds
the map: entries arrive in increasing key order and append one by one. -/
theorem insertFold (r : Row) :
    ∀ m : Row, RowWF r → (∀ p ∈ r, goodKey p.1) →
      (∀ p ∈ m, ∀ q ∈ r, strLtB p.1 q.1 = true) →
      (r.map (fun p => (p.1, Ptree.node p.2 []))).foldl
        (fun m c => if 0 < c.1.length then mapInsert c.1 c.2.data m else m) m =
        m ++ r := by
  induction r with
  | nil => intro m _ _ _; simp
  | cons p rest ih =>
    intro m hwf hg hlt
    have hgp : goodKey p.1 := hg p (List.mem_cons_self p rest)
    rw [List.map_cons, List.foldl_cons, if_pos hgp.1]
    have hins : mapInsert p.1 (Ptree.node p.2 []).data m = m ++ [p] := by
      have := mapInsert_append (k := p.1) (v := (Ptree.node p.2 []).data)
        (m := m) (fun q hq => hlt q hq p (List.mem_cons_self p rest))
      simpa [Ptree.data] using this
    rw [hins,
      ih (m ++ [p]) (List.pairwise_cons.mp hwf).2
        (fun q hq => hg q (List.mem_cons_of_mem p hq))
        (fun q hq s hs => by
          rcases List.mem_append.mp hq with hq | hq
          · exact hlt q hq s (List.mem_cons_of_mem p hs)
          · have : q = p := by simpa using hq
            subst this
            exact (List.pairwise_cons.mp hwf).1 s hs),
      List.append_assoc]
    rfl

/-- Row round trip under good keys. -/
theorem deserializeRow_serializeRow {r : Row} (hwf : RowWF r)
    (hg : ∀ p ∈ r, goodKey p.1) :
    deserializeRow (serializeRow r Ptree.empty).2 [] = (okStatus, r) := by
  unfold deserializeRow
  rw [serializeRow_structure hwf hg]
  rw [show (Ptree.node "" (r.map (fun p => (p.1, Ptree.node p.2 [])))).children
      = r.map (fun p => (p.1, Ptree.node p.2 [])) from rfl]
  rw [insertFold r [] hwf hg (fun p hp => absurd hp (List.not_mem_nil p))]
  rfl

/-- `serializeQueryData` always succeeds and appends one anonymous child per
row, each the `serializeRow` tree of that row. -/
theorem serializeQueryData_structure (q : QueryData) :
    ∀ t : Ptree, serializeQueryData q t =
      (okStatus,
        .node t.data (t.children ++
          q.map (fun r => ("", (serializeRow r Ptree.empty).2)))) := by
  induction q with
  | nil => intro t; cases t; simp [serializeQueryData, Ptree.data, Ptree.children]
  | cons r rest ih =>
    intro t
    have hstep : serializeQueryData (r :: rest) t =
        serializeQueryData rest
          (t.pushBack ("", (serializeRow r Ptree.empty).2)) := rfl
    rw [hstep, ih (t.pushBack ("", (serializeRow r Ptree.empty).2))]
    simp [Ptree.pushBack, Ptree.data, Ptree.children, List.append_assoc]

/-- The `deserializeQueryData` loop over serialized rows rebuilds them. -/
theorem deserializeQueryDataAux_rows (q : QueryData) :
    ∀ acc : QueryData, (∀ r ∈ q, RowWF r) →
      (∀ r ∈ q, ∀ p ∈ r, goodKey p.1) →
      deserializeQueryDataAux
        (q.map (fun r => ("", (serializeRow r Ptree.empty).2))) acc =
        (okStatus, acc ++ q) := by
  induction q with
  | nil => intro acc _ _; simp [deserializeQueryDataAux]
  | cons r rest ih =>
    intro acc hwf hg
    have hrow := deserializeRow_serializeRow (hwf r (List.mem_cons_self r rest))
      (hg r (List.mem_cons_self r rest))
    have hstep : deserializeQueryDataAux
        ((r :: rest).map (fun r => ("", (serializeRow r Ptree.empty).2))) acc =
        deserializeQueryDataAux
          (rest.map (fun r => ("", (serializeRow r Ptree.empty).2)))
          (acc ++ [(deserializeRow (serializeRow r Ptree.empty).2 []).2]) := rfl
    rw [hstep, hrow,
      ih (acc ++ [r]) (fun s hs => hwf s (List.mem_cons_of_mem r hs))
        (fun s hs => hg s (List.mem_cons_of_mem r hs)),
      List.append_assoc]
    rfl

/-- QueryData round trip under good keys. -/
theorem deserializeQueryData_serializeQueryData {q : QueryData}
    (hwf : ∀ r ∈ q, RowWF r) (hg : ∀ r ∈ q, ∀ p ∈ r, goodKey p.1) :
    deserializeQueryData (serializeQueryData q Ptree.empty).2 [] =
      (okStatus, q) := by
  rw [serializeQueryData_structure q Ptree.empty]
  unfold deserializeQueryData
  rw [show (Ptree.node Ptree.empty.data (Ptree.empty.children ++
      q.map (fun r => ("", (serializeRow r Ptree.empty).2)))).children =
      q.map (fun r => ("", (serializeRow r Ptree.empty).2)) by
    simp [Ptree.empty, Ptree.children]]
  simpa using deserializeQueryDataAux_rows q [] hwf hg

theorem addChild_single {k : String} (hg : goodKey k) (t sub : Ptree) :
    t.addChild k sub = .node t.data (t.children ++ [(k, sub)]) := by
  rw [Ptree.addChild, splitPath_single hg]
  rfl

theorem getChild_single {k : String} (hg : goodKey k) (t : Ptree) :
    t.getChild k = findChild k t.children := by
  rw [Ptree.getChild, splitPath_single hg]
  cases h : findChild k t.children <;> simp [getPath, h]

/-- `serializeDiffResults` always succeeds, adding the `"added"` child then
the `"removed"` child. -/
theorem serializeDiffResults_structure (d : DiffResults) (t : Ptree) :
    serializeDiffResults d t =
      (okStatus,
        (t.addChild "added" (serializeQueryData d.added Ptree.empty).2).addChild
          "removed" (serializeQueryData d.removed Ptree.empty).2) := by
  unfold serializeDiffResults
  rw [serializeQueryData_structure d.added Ptree.empty,
    serializeQueryData_structure d.removed Ptree.empty]
  rfl

/-- DiffResults round trip (into an empty target) under good keys. -/
theorem deserializeDiffResults_serializeDiffResults {d : DiffResults}
    (hwf : ∀ s ∈ d.added ++ d.removed, RowWF s)
    (hg : ∀ s ∈ d.added ++ d.removed, ∀ p ∈ s, goodKey p.1) :
    deserializeDiffResults (serializeDiffResults d Ptree.empty).2 ⟨[], []⟩ =
      (okStatus, d) := by
  rw [serializeDiffResults_structure]
  rw [addChild_single (by decide) Ptree.empty
    (serializeQueryData d.added Ptree.empty).2]
  rw [addChild_single (by decide) _ (serializeQueryData d.removed Ptree.empty).2]
  have hA := deserializeQueryData_serializeQueryData
    (q := d.added) (fun s hs => hwf s (List.mem_append_left _ hs))
    (fun s hs => hg s (List.mem_append_left _ hs))
  have hR := deserializeQueryData_serializeQueryData
    (q := d.removed) (fun s hs => hwf s (List.mem_append_right _ hs))
    (fun s hs => hg s (List.mem_append_right _ hs))
  unfold deserializeDiffResults
  rw [getChild_single (by decide), getChild_single (by decide)]
  simp [Ptree.empty, Ptree.data, Ptree.children, Ptree.count,
    List.countP_cons, findChild, hA, hR, okStatus, Status.ok]
  rw [show Ptree.empty = Ptree.node "" [] from rfl] at hA hR
  rw [hA, hR]
  simp [okStatus]

/-- C3 fails as stated: for the Row `{"a.b": "1"}`, `serializeRow` splits
the key at the boost path separator `.` into a nested subtree, and
`deserializeRow` then reads back the entry `{"a": ""}`, so
serialize-then-deserialize is not the identity on every Row value. -/
theorem claim_C3_counterexample :
    (deserializeRow (serializeRow [("a.b", "1")] Ptree.empty).2 []).2 =
      [("a", "")] ∧
    (deserializeRow (serializeRow [("a.b", "1")] Ptree.empty).2 []).2 ≠
      [("a.b", "1")] := by
  constructor
  · rfl
  · decide

/-- C3 (amended): for every Row whose column names are non-empty and free of
the path separator `.`, deserializeRow applied to the tree produced by
serializeRow reproduces an equal Row; under the same restriction on all
contained rows, serialize-then-deserialize into an empty target is the
identity for every QueryData and every DiffResults value. -/
theorem claim_C3_roundtrip (r : Row) (q : QueryData) (d : DiffResults)
    (hr1 : RowWF r) (hr2 : ∀ p ∈ r, goodKey p.1)
    (hq1 : ∀ s ∈ q, RowWF s) (hq2 : ∀ s ∈ q, ∀ p ∈ s, goodKey p.1)
    (hd1 : ∀ s ∈ d.added ++ d.removed, RowWF s)
    (hd2 : ∀ s ∈ d.added ++ d.removed, ∀ p ∈ s, goodKey p.1) :
    deserializeRow (serializeRow r Ptree.empty).2 [] = (okStatus, r) ∧
    deserializeQueryData (serializeQueryData q Ptree.empty).2 [] =
      (okStatus, q) ∧
    deserializeDiffResults (serializeDiffResults d Ptree.empty).2 ⟨[], []⟩ =
      (okStatus, d) :=
  ⟨deserializeRow_serializeRow hr1 hr2,
   deserializeQueryData_serializeQueryData hq1 hq2,
   deserializeDiffResults_serializeDiffResults hd1 hd2⟩

/-- C3 witness: the amended round trip evaluated on concrete values. -/
theorem claim_C3_roundtrip_witness :
    deserializeRow (serializeRow [("a", "1")] Ptree.empty).2 [] =
      (okStatus, [("a", "1")]) ∧
    deserializeQueryData
      (serializeQueryData [[("a", "1")], [("b", "2")]] Ptree.empty).2 [] =
      (okStatus, [[("a", "1")], [("b", "2")]]) ∧
    deserializeDiffResults
      (serializeDiffResults ⟨[[("a", "1")]], [[("b", "2")]]⟩ Ptree.empty).2
      ⟨[], []⟩ =
      (okStatus, ⟨[[("a", "1")]], [[("b", "2")]]⟩) :=
  claim_C3_roundtrip [("a", "1")] [[("a", "1")], [("b", "2")]]
    ⟨[[("a", "1")]], [[("b", "2")]]⟩
    (by decide) (by decide) (by decide) (by decide) (by decide) (by decide)

/-- C10 fails as stated: when the input sequence already holds two
structurally-equal rows, a duplicate insert returns false and leaves the
sequence unchanged — so the result still contains two structurally-equal
rows. -/
theorem claim_C10_counterexample :
    addUniqueRowToQueryData [[("a", "1")], [("a", "1")]] [("a", "1")] =
      (false, [[("a", "1")], [("a", "1")]]) ∧
    ¬ ([[("a", "1")], [("a", "1")]] : QueryData).Nodup := by
  constructor
  · decide
  · decide

/-- C10 (amended): `addUniqueRowToQueryData(q, r)` appends `r` and returns
true exactly when no structurally-equal row exists in `q`; on a duplicate it
returns false with `q` unchanged in order and content; and it introduces no
duplicate: whenever `q` itself holds no two structurally-equal rows, neither
does the result. -/
theorem claim_C10_addUnique (q : QueryData) (r : Row) :
    (r ∉ q → addUniqueRowToQueryData q r = (true, q ++ [r])) ∧
    (r ∈ q → addUniqueRowToQueryData q r = (false, q)) ∧
    (q.Nodup → (addUniqueRowToQueryData q r).2.Nodup) := by
  refine ⟨fun h => by simp [addUniqueRowToQueryData, h],
    fun h => by simp [addUniqueRowToQueryData, h], fun hnd => ?_⟩
  by_cases h : r ∈ q
  · simpa [addUniqueRowToQueryData, h] using hnd
  · simp only [addUniqueRowToQueryData, h, if_neg, if_false]
    simpa [List.nodup_append] using ⟨hnd, h⟩

/-- C10 witness: the amended claim evaluated on concrete values. -/
theorem claim_C10_addUnique_witness :
    addUniqueRowToQueryData [[("a", "1")]] [("b", "2")] =
      (true, [[("a", "1")], [("b", "2")]]) ∧
    addUniqueRowToQueryData [[("a", "1")]] [("a", "1")] =
      (false, [[("a", "1")]]) ∧
    (addUniqueRowToQueryData [[("a", "1")]] [("b", "2")]).2.Nodup :=
  ⟨(claim_C10_addUnique [[("a", "1")]] [("b", "2")]).1 (by decide),
   (claim_C10_addUnique [[("a", "1")]] [("a", "1")]).2.1 (by decide),
   (claim_C10_addUnique [[("a", "1")]] [("b", "2")]).2.2 (by decide)⟩

/-- Rebuilding the `"columns"` tree from serialized leaf children of a good
row reproduces exactly the row's pairs as leaves. -/
theorem columnsFold {r : Row} (hwf : RowWF r) (hg : ∀ p ∈ r, goodKey p.1) :
    (r.map (fun p => (p.1, Ptree.node p.2 []))).foldl
      (fun c p => c.put p.1 p.2.data) Ptree.empty =
      .node "" (r.map (fun p => (p.1, Ptree.node p.2 []))) := by
  rw [List.foldl_map]
  exact putFold r Ptree.empty hg (RowWF_keys_ne hwf) (fun p _ => rfl)

/-- `serializeEvent` on the serialized tree of a good row: the legacy tree
plus a `"columns"` child holding the row's pairs. -/
theorem serializeEvent_on_row {r : Row} (hwf : RowWF r)
    (hg : ∀ p ∈ r, goodKey p.1) (topLevel : Bool) (item : QueryLogItem) :
    (serializeEvent topLevel item (serializeRow r Ptree.empty).2 Ptree.empty).2 =
      (addLegacyFieldsAndDecorations topLevel item Ptree.empty).addChild
        "columns" (.node "" (r.map (fun p => (p.1, Ptree.node p.2 [])))) := by
  show (addLegacyFieldsAndDecorations topLevel item Ptree.empty).addChild
      "columns" ((serializeRow r Ptree.empty).2.children.foldl
        (fun c p => c.put p.1 p.2.data) Ptree.empty) = _
  rw [serializeRow_structure hwf hg]
  rw [show (Ptree.node "" (r.map (fun p => (p.1, Ptree.node p.2 [])))).children
      = r.map (fun p => (p.1, Ptree.node p.2 [])) from rfl]
  rw [columnsFold hwf hg]

/-- The inner loop of `serializeQueryLogItemAsEvents` over one action
category: one event document per row, in row order. -/
theorem eventsFold (topLevel : Bool) (item : QueryLogItem) (cat : String)
    (q : QueryData) :
    ∀ t : Ptree, (∀ s ∈ q, RowWF s) → (∀ s ∈ q, ∀ p ∈ s, goodKey p.1) →
      (q.map (fun r => ("", (serializeRow r Ptree.empty).2))).foldl
        (fun t rc =>
          t.pushBack
            ("", (serializeEvent topLevel item rc.2 Ptree.empty).2.put
              "action" cat)) t =
        .node t.data (t.children ++
          q.map (fun r => ("", eventDocSpec topLevel item cat r))) := by
  induction q with
  | nil => intro t _ _; cases t; simp [Ptree.data, Ptree.children]
  | cons r rest ih =>
    intro t hwf hg
    rw [List.map_cons, List.foldl_cons]
    rw [serializeEvent_on_row (hwf r (List.mem_cons_self r rest))
      (hg r (List.mem_cons_self r rest)) topLevel item]
    have hfold : ((addLegacyFieldsAndDecorations topLevel item
        Ptree.empty).addChild "columns"
        (Ptree.node "" (r.map (fun p => (p.1, Ptree.node p.2 []))))).put
        "action" cat = eventDocSpec topLevel item cat r := rfl
    rw [hfold]
    rw [ih (t.pushBack ("", eventDocSpec topLevel item cat r))
      (fun s hs => hwf s (List.mem_cons_of_mem r hs))
      (fun s hs => hg s (List.mem_cons_of_mem r hs))]
    simp [Ptree.pushBack, Ptree.data, Ptree.children, List.append_assoc,
      eventDocSpec]

/-- The serialized DiffResults of an item, child by child. -/
theorem serializeDiffResults_children (item : QueryLogItem) :
    serializeDiffResults item.results Ptree.empty =
      (okStatus, Ptree.node ""
        [("added", Ptree.node "" (item.results.added.map
            (fun r => ("", (serializeRow r Ptree.empty).2)))),
         ("removed", Ptree.node "" (item.results.removed.map
            (fun r => ("", (serializeRow r Ptree.empty).2))))]) := by
  rw [serializeDiffResults_structure,
    serializeQueryData_structure item.results.added Ptree.empty,
    serializeQueryData_structure item.results.removed Ptree.empty,
    addChild_single (by decide), addChild_single (by decide)]
  simp [Ptree.empty, Ptree.data, Ptree.children]

/-- C7 (amended): for every decorations-placement flag and every diff-mode
QueryLogItem whose rows have non-empty, separator-free column names,
serializeQueryLogItemAsEvents emits exactly one document per row per action
category in {added, removed}, in category-then-row order; each document is
the legacy fields and decorations, a `columns` child holding exactly that
row's column/value pairs, and an `action` field naming the category.  An
item with empty `added` and `removed` (snapshot mode) yields zero event
documents. -/
theorem claim_C7_events (topLevel : Bool) (item : QueryLogItem)
    (h1 : ∀ s ∈ item.results.added ++ item.results.removed, RowWF s)
    (h2 : ∀ s ∈ item.results.added ++ item.results.removed, ∀ p ∈ s, goodKey p.1) :
    serializeQueryLogItemAsEvents topLevel item Ptree.empty =
      (okStatus, .node ""
        (item.results.added.map
          (fun r => ("", eventDocSpec topLevel item "added" r)) ++
         item.results.removed.map
          (fun r => ("", eventDocSpec topLevel item "removed" r)))) := by
  unfold serializeQueryLogItemAsEvents
  rw [serializeDiffResults_children item]
  simp only [Status.ok, okStatus, Ptree.children, List.foldl_cons, List.foldl_nil]
  rw [eventsFold topLevel item "added" item.results.added Ptree.empty
    (fun s hs => h1 s (List.mem_append_left _ hs))
    (fun s hs => h2 s (List.mem_append_left _ hs))]
  rw [eventsFold topLevel item "removed" item.results.removed
    (Ptree.node Ptree.empty.data (Ptree.empty.children ++
      item.results.added.map
        (fun r => ("", eventDocSpec topLevel item "added" r))))
    (fun s hs => h1 s (List.mem_append_right _ hs))
    (fun s hs => h2 s (List.mem_append_right _ hs))]
  simp [Ptree.empty, Ptree.data, Ptree.children]

/-- C7 fails as stated: for the diff-mode item whose added row is
`{"a.b": "1"}`, the single emitted event's `columns` child holds the pair
`("a", "")` — the column name was split at the path separator and the value
lost — not that row's column/value pair `("a.b", "1")`. -/
theorem claim_C7_counterexample :
    ((serializeQueryLogItemAsEvents false eventItemDot Ptree.empty).2.children.map
      (fun c => c.2.getChild "columns")) =
      [some (Ptree.node "" [("a", Ptree.node "" [])])] ∧
    some (Ptree.node "" [("a", Ptree.node "" [])]) ≠
      some (Ptree.node "" [("a.b", Ptree.node "1" [])]) := by
  refine ⟨rfl, ?_⟩
  simp

/-- C7 witness: the amended claim evaluated on a concrete two-row item. -/
theorem claim_C7_events_witness :
    serializeQueryLogItemAsEvents true eventItemPlain Ptree.empty =
      (okStatus, .node ""
        (eventItemPlain.results.added.map
          (fun r => ("", eventDocSpec true eventItemPlain "added" r)) ++
         eventItemPlain.results.removed.map
          (fun r => ("", eventDocSpec true eventItemPlain "removed" r)))) :=
  claim_C7_events true eventItemPlain (by decide) (by decide)

/-! ### Child-presence facts for `serializeQueryLogItem` -/

theorem splitPath_dotFree {k : String} (h : dotFree k) : splitPath k = [k] := by
  unfold splitPath
  rw [splitChars_no_dot h]
  cases k
  rfl

theorem findChild_modifyFirst_ne {k k' : String} (h : k ≠ k')
    (f : Ptree → Ptree) (l : List (String × Ptree)) :
    findChild k' (modifyFirst k f l) = findChild k' l := by
  induction l with
  | nil => simp [modifyFirst, findChild, h]
  | cons p tl ih =>
    cases p with
    | mk pk pt =>
      rw [modifyFirst]
      by_cases hp : pk = k
      · subst hp
        rw [if_pos rfl, findChild, findChild, if_neg h, if_neg h]
      · rw [if_neg hp, findChild, findChild]
        by_cases hp' : pk = k'
        · rw [if_pos hp', if_pos hp']
        · rw [if_neg hp', if_neg hp', ih]

theorem countP_modifyFirst_ne {k k' : String} (h : k ≠ k')
    (f : Ptree → Ptree) (l : List (String × Ptree)) :
    (modifyFirst k f l).countP (fun c => decide (c.1 = k')) =
      l.countP (fun c => decide (c.1 = k')) := by
  induction l with
  | nil => simp [modifyFirst, h]
  | cons p tl ih =>
    cases p with
    | mk pk pt =>
      rw [modifyFirst]
      by_cases hp : pk = k
      · subst hp
        rw [if_pos rfl, List.countP_cons, List.countP_cons]
      · rw [if_neg hp, List.countP_cons, List.countP_cons, ih]

theorem put_preserves_findChild {t : Ptree} {k v k' : String}
    (hd : dotFree k) (hne : k ≠ k') :
    findChild k' (t.put k v).children = findChild k' t.children := by
  rw [Ptree.put, splitPath_dotFree hd, putPath]
  exact findChild_modifyFirst_ne hne _ _

theorem put_preserves_count {t : Ptree} {k v k' : String}
    (hd : dotFree k) (hne : k ≠ k') :
    (t.put k v).count k' = t.count k' := by
  rw [Ptree.put, splitPath_dotFree hd, putPath, Ptree.count, Ptree.count]
  exact countP_modifyFirst_ne hne _ _

theorem putFold_preserves_findChild (l : Row) :
    ∀ t : Ptree, ∀ {k' : String},
      (∀ p ∈ l, dotFree p.1 ∧ p.1 ≠ k') →
      findChild k' ((l.foldl (fun t p => t.put p.1 p.2) t)).children =
        findChild k' t.children := by
  induction l with
  | nil => intro t k' _; rfl
  | cons p tl ih =>
    intro t k' h
    rw [List.foldl_cons,
      ih (t.put p.1 p.2) (fun q hq => h q (List.mem_cons_of_mem p hq)),
      put_preserves_findChild (h p (List.mem_cons_self p tl)).1
        (h p (List.mem_cons_self p tl)).2]

theorem putFold_preserves_count (l : Row) :
    ∀ t : Ptree, ∀ {k' : String},
      (∀ p ∈ l, dotFree p.1 ∧ p.1 ≠ k') →
      ((l.foldl (fun t p => t.put p.1 p.2) t)).count k' = t.count k' := by
  induction l with
  | nil => intro t k' _; rfl
  | cons p tl ih =>
    intro t k' h
    rw [List.foldl_cons,
      ih (t.put p.1 p.2) (fun q hq => h q (List.mem_cons_of_mem p hq)),
      put_preserves_count (h p (List.mem_cons_self p tl)).1
        (h p (List.mem_cons_self p tl)).2]

theorem findChild_append_single_ne {k k' : String} {sub : Ptree}
    {l : List (String × Ptree)} (h : k ≠ k') :
    findChild k' (l ++ [(k, sub)]) = findChild k' l := by
  induction l with
  | nil => simp [findChild, h]
  | cons p tl ih =>
    rw [List.cons_append, findChild, findChild]
    by_cases hp : p.1 = k'
    · rw [if_pos hp, if_pos hp]
    · rw [if_neg hp, if_neg hp, ih]

/-- `addLegacyFieldsAndDecorations` never disturbs the presence of a child
whose name differs from all legacy field names, from `"decorations"`, and —
when decorations are flattened to the top level — from every decoration
key, the decoration keys being separator-free. -/
theorem addLegacy_preserves_findChild (topLevel : Bool) (item : QueryLogItem)
    (t : Ptree) {k' : String}
    (h1 : "name" ≠ k') (h2 : "hostIdentifier" ≠ k')
    (h3 : "calendarTime" ≠ k') (h4 : "unixTime" ≠ k')
    (h5 : "decorations" ≠ k')
    (hdec : topLevel = true → ∀ p ∈ item.decorations, dotFree p.1 ∧ p.1 ≠ k') :
    findChild k' (addLegacyFieldsAndDecorations topLevel item t).children =
      findChild k' t.children := by
  unfold addLegacyFieldsAndDecorations
  have hbase : ∀ u : Ptree,
      findChild k' ((((u.put "name" item.name).put
        "hostIdentifier" item.identifier).put
        "calendarTime" item.calendar_time).put
        "unixTime" (toString item.time)).children = findChild k' u.children := by
    intro u
    rw [put_preserves_findChild (by decide) h4,
      put_preserves_findChild (by decide) h3,
      put_preserves_findChild (by decide) h2,
      put_preserves_findChild (by decide) h1]
  by_cases hlen : 0 < item.decorations.length
  · rw [if_pos hlen]
    cases topLevel with
    | true =>
      rw [if_pos rfl, putFold_preserves_findChild item.decorations _ (hdec rfl)]
      exact hbase t
    | false =>
      rw [if_neg (by simp)]
      rw [addChild_single ⟨by decide, by decide⟩]
      rw [show ∀ u : Ptree, findChild k'
          (Ptree.node u.data (u.children ++ [("decorations",
            item.decorations.foldl (fun t p => t.put p.1 p.2)
              Ptree.empty)])).children =
          findChild k' (u.children ++ [("decorations", _)]) from fun u => rfl]
      rw [findChild_append_single_ne h5]
      exact hbase t
  · rw [if_neg hlen]
    exact hbase t

/-- Counting version of `addLegacy_preserves_findChild`. -/
theorem addLegacy_preserves_count (topLevel : Bool) (item : QueryLogItem)
    (t : Ptree) {k' : String}
    (h1 : "name" ≠ k') (h2 : "hostIdentifier" ≠ k')
    (h3 : "calendarTime" ≠ k') (h4 : "unixTime" ≠ k')
    (h5 : "decorations" ≠ k')
    (hdec : topLevel = true → ∀ p ∈ item.decorations, dotFree p.1 ∧ p.1 ≠ k') :
    (addLegacyFieldsAndDecorations topLevel item t).count k' = t.count k' := by
  unfold addLegacyFieldsAndDecorations
  have hbase : ∀ u : Ptree,
      ((((u.put "name" item.name).put
        "hostIdentifier" item.identifier).put
        "calendarTime" item.calendar_time).put
        "unixTime" (toString item.time)).count k' = u.count k' := by
    intro u
    rw [put_preserves_count (by decide) h4,
      put_preserves_count (by decide) h3,
      put_preserves_count (by decide) h2,
      put_preserves_count (by decide) h1]
  by_cases hlen : 0 < item.decorations.length
  · rw [if_pos hlen]
    cases topLevel with
    | true =>
      rw [if_pos rfl, putFold_preserves_count item.decorations _ (hdec rfl)]
      exact hbase t
    | false =>
      rw [if_neg (by simp)]
      rw [addChild_single ⟨by decide, by decide⟩]
      rw [show ∀ u : Ptree, (Ptree.node u.data (u.children ++ [("decorations",
          item.decorations.foldl (fun t p => t.put p.1 p.2)
            Ptree.empty)])).count k' =
          (u.children ++ [("decorations",
            item.decorations.foldl (fun t p => t.put p.1 p.2)
              Ptree.empty)]).countP (fun c => decide (c.1 = k'))
          from fun u => rfl]
      rw [List.countP_append]
      have hz : ([("decorations",
          item.decorations.foldl (fun t p => t.put p.1 p.2)
            Ptree.empty)] : List (String × Ptree)).countP
          (fun c => decide (c.1 = k')) = 0 := by
        simp [h5]
      rw [hz, Nat.add_zero]
      exact hbase t
  · rw [if_neg hlen]
    exact hbase t

/-- `serializeQueryLogItem` succeeds and produces either the diff payload or
the snapshot payload plus action marker, then the legacy fields. -/
theorem serializeQueryLogItem_structure (topLevel : Bool) (item : QueryLogItem) :
    serializeQueryLogItem topLevel item Ptree.empty =
      if 0 < item.results.added.length || 0 < item.results.removed.length then
        (okStatus, addLegacyFieldsAndDecorations topLevel item
          (Ptree.empty.addChild "diffResults"
            (serializeDiffResults item.results Ptree.empty).2))
      else
        (okStatus, addLegacyFieldsAndDecorations topLevel item
          ((Ptree.empty.addChild "snapshot"
            (serializeQueryData item.snapshot_results Ptree.empty).2).put
            "action" "snapshot")) := by
  unfold serializeQueryLogItem
  by_cases hc :
      (0 < item.results.added.length || 0 < item.results.removed.length) = true
  · rw [if_pos hc, if_pos hc]
    have h1 : (serializeDiffResults item.results Ptree.empty).1 = okStatus := by
      rw [serializeDiffResults_structure]
    simp only [h1]
    simp [okStatus, Status.ok]
  · rw [if_neg hc, if_neg hc]
    have h1 : (serializeQueryData item.snapshot_results Ptree.empty).1 =
        okStatus := by
      rw [serializeQueryData_structure]
    simp only [h1]
    simp [okStatus, Status.ok]

/-- C8 (amended): for every decorations-placement flag and every
QueryLogItem — provided that, when decorations are flattened to the top
level, no decoration key contains the path separator or is one of
`action`, `diffResults`, `snapshot` — serializeQueryLogItem succeeds,
writes a `diffResults` child if and only if the item's added or removed
list is non-empty, and otherwise (including when both the diff and the
snapshot payload are empty) writes a `snapshot` child containing the
QueryData-tree and sets a top-level `action` field to the literal
`"snapshot"`. -/
theorem claim_C8_payload (topLevel : Bool) (item : QueryLogItem)
    (hdec : topLevel = true → ∀ p ∈ item.decorations,
      dotFree p.1 ∧ p.1 ≠ "action" ∧ p.1 ≠ "diffResults" ∧ p.1 ≠ "snapshot") :
    (serializeQueryLogItem topLevel item Ptree.empty).1 = okStatus ∧
    (0 < (serializeQueryLogItem topLevel item Ptree.empty).2.count
        "diffResults" ↔
      (item.results.added ≠ [] ∨ item.results.removed ≠ [])) ∧
    (item.results.added = [] → item.results.removed = [] →
      (serializeQueryLogItem topLevel item Ptree.empty).2.getChild "snapshot" =
        some (serializeQueryData item.snapshot_results Ptree.empty).2 ∧
      ((serializeQueryLogItem topLevel item Ptree.empty).2.getChild
        "action").map Ptree.data = some "snapshot") := by
  rw [serializeQueryLogItem_structure]
  by_cases hc :
      (0 < item.results.added.length || 0 < item.results.removed.length) = true
  · rw [if_pos hc]
    have hne : item.results.added ≠ [] ∨ item.results.removed ≠ [] := by
      rcases Bool.or_eq_true_iff.mp hc with h | h
      · exact Or.inl (List.ne_nil_of_length_pos (of_decide_eq_true h))
      · exact Or.inr (List.ne_nil_of_length_pos (of_decide_eq_true h))
    refine ⟨rfl, ?_, ?_⟩
    · rw [addLegacy_preserves_count topLevel item _
        (by decide) (by decide) (by decide) (by decide) (by decide)
        (fun htl p hp => ⟨(hdec htl p hp).1, (hdec htl p hp).2.2.1⟩)]
      rw [addChild_single (by decide)]
      have hcount : (Ptree.node Ptree.empty.data (Ptree.empty.children ++
          [("diffResults",
            (serializeDiffResults item.results Ptree.empty).2)])).count
          "diffResults" = 1 := by
        simp [Ptree.empty, Ptree.count, Ptree.children, Ptree.data,
          List.countP_cons]
      rw [hcount]
      exact iff_of_true Nat.one_pos hne
    · intro ha hr
      rw [ha, hr] at hc
      simp at hc
  · rw [if_neg hc]
    have hab : item.results.added = [] ∧ item.results.removed = [] := by
      rcases Bool.or_eq_false_iff.mp (Bool.of_not_eq_true hc) with ⟨hf1, hf2⟩
      have hl1 : item.results.added.length = 0 :=
        Nat.eq_zero_of_not_pos (of_decide_eq_false hf1)
      have hl2 : item.results.removed.length = 0 :=
        Nat.eq_zero_of_not_pos (of_decide_eq_false hf2)
      exact ⟨List.eq_nil_of_length_eq_zero hl1,
        List.eq_nil_of_length_eq_zero hl2⟩
    have hbase2 : (Ptree.empty.addChild "snapshot"
        (serializeQueryData item.snapshot_results Ptree.empty).2).put
        "action" "snapshot" =
        Ptree.node "" [("snapshot",
          (serializeQueryData item.snapshot_results Ptree.empty).2),
          ("action", Ptree.node "snapshot" [])] := by
      rw [addChild_single (by decide)]
      rfl
    refine ⟨rfl, ?_, fun _ _ => ⟨?_, ?_⟩⟩
    · rw [addLegacy_preserves_count topLevel item _
        (by decide) (by decide) (by decide) (by decide) (by decide)
        (fun htl p hp => ⟨(hdec htl p hp).1, (hdec htl p hp).2.2.1⟩),
        hbase2]
      have hcount : (Ptree.node "" [("snapshot",
          (serializeQueryData item.snapshot_results Ptree.empty).2),
          ("action", Ptree.node "snapshot" [])]).count "diffResults" = 0 := by
        simp [Ptree.count, Ptree.children, List.countP_cons]
      rw [hcount]
      exact iff_of_false (by omega) (by simp [hab.1, hab.2])
    · rw [getChild_single (by decide),
        addLegacy_preserves_findChild topLevel item _
          (by decide) (by decide) (by decide) (by decide) (by decide)
          (fun htl p hp => ⟨(hdec htl p hp).1, (hdec htl p hp).2.2.2⟩),
        hbase2]
      rfl
    · rw [getChild_single (by decide),
        addLegacy_preserves_findChild topLevel item _
          (by decide) (by decide) (by decide) (by decide) (by decide)
          (fun htl p hp => ⟨(hdec htl p hp).1, (hdec htl p hp).2.1⟩),
        hbase2]
      rfl

/-- C8 fails as stated: with decorations flattened to the top level, a
decoration named `action` overwrites the `action` field after the snapshot
branch set it, so the serialized item's top-level `action` is `"boo"`, not
the literal `"snapshot"`. -/
theorem claim_C8_counterexample :
    (((serializeQueryLogItem true logItemDecAction Ptree.empty).2.getChild
      "action").map Ptree.data) = some "boo" ∧
    (some "boo" : Option String) ≠ some "snapshot" := by
  refine ⟨rfl, by decide⟩

/-- C8 witness: the amended claim evaluated on a concrete snapshot item. -/
theorem claim_C8_payload_witness :
    (serializeQueryLogItem true logItemSnap Ptree.empty).1 = okStatus ∧
    (0 < (serializeQueryLogItem true logItemSnap Ptree.empty).2.count
        "diffResults" ↔
      (logItemSnap.results.added ≠ [] ∨ logItemSnap.results.removed ≠ [])) ∧
    (logItemSnap.results.added = [] → logItemSnap.results.removed = [] →
      (serializeQueryLogItem true logItemSnap Ptree.empty).2.getChild
          "snapshot" =
        some (serializeQueryData logItemSnap.snapshot_results Ptree.empty).2 ∧
      ((serializeQueryLogItem true logItemSnap Ptree.empty).2.getChild
        "action").map Ptree.data = some "snapshot") :=
  claim_C8_payload true logItemSnap (fun _ => by decide)

/-- C4: the code diverges from the claim.  With kDBHandleOptionRequireWrite
set and a read-only handle, a successful setUp still makes checkDB return
true: `result = status.ok()` executes after — and overwrites — the
`result = false` assigned by the read-only check, so the claimed `false`
outcome is not returned. -/
theorem claim_C4_checkDB_requireWrite :
    (DatabasePlugin.checkDB checkDBEnvBug).1 = true := rfl

/-- C9: checkDB drives the shared checking indicator correctly: it is true
while the self-test body runs and false after checkDB returns, on every
path; and when the backend raises an exception during setUp or tearDown,
checkDB catches it and returns false instead of propagating it (its result
type is a plain boolean), with the indicator still cleared. -/
theorem claim_C9_checkDB_flag (env : CheckDBEnv) :
    (DatabasePlugin.checkDB env).2.1 = true ∧
    (DatabasePlugin.checkDB env).2.2 = false ∧
    (exceptFailed env.setUpResult = true ∨
      exceptFailed env.tearDownResult = true →
      (DatabasePlugin.checkDB env).1 = false) := by
  obtain ⟨rw', ro, su, td⟩ := env
  cases su <;> cases td <;>
    simp [DatabasePlugin.checkDB, exceptFailed]

/-- C9 witness: the flag discipline evaluated on a throwing setUp. -/
theorem claim_C9_checkDB_flag_witness :
    (DatabasePlugin.checkDB checkDBEnvThrow).2.1 = true ∧
    (DatabasePlugin.checkDB checkDBEnvThrow).2.2 = false ∧
    (DatabasePlugin.checkDB checkDBEnvThrow).1 = false :=
  ⟨(claim_C9_checkDB_flag checkDBEnvThrow).1,
   (claim_C9_checkDB_flag checkDBEnvThrow).2.1,
   (claim_C9_checkDB_flag checkDBEnvThrow).2.2 (Or.inl rfl)⟩

/-- C5 fails as stated: a scan request with no `prefix` entry reaches
`request.at("prefix")`, whose `std::out_of_range` escapes `call` — no
Status is returned. -/
theorem claim_C5_counterexample :
    DatabasePlugin.call noopBackend [("action", "scan")] =
      .error "map::at: key not found" := rfl

/-- C5 (amended): DatabasePlugin::call returns a Status without letting an
exception escape for every request except a scan request that lacks a
`prefix` entry or whose `max` entry is not a decimal numeral in range — in
those two cases an exception (out_of_range from `map::at`, or
invalid_argument/out_of_range from `std::stoul`) escapes. -/
theorem claim_C5_no_throw (b : DBBackend) (request : PluginRequest)
    (h : request.lookup "action" = some "scan" →
      (request.lookup "prefix").isSome = true ∧
      (∀ m, request.lookup "max" = some m → (stoulModel m).isSome = true)) :
    exceptOk (DatabasePlugin.call b request) = true := by
  unfold DatabasePlugin.call
  cases ha : request.lookup "action" with
  | none => simp [ha, exceptOk]
  | some a =>
    simp only [ha, Option.isSome_some, Option.getD_some]
    by_cases h1 : a = "get"
    · simp [h1, exceptOk]
    · by_cases h2 : a = "put"
      · by_cases hv : (request.lookup "value").isSome = false
        · simp [h1, h2, hv, exceptOk]
        · simp [h1, h2, hv, exceptOk]
      · by_cases h3 : a = "remove"
        · simp [h1, h2, h3, exceptOk]
        · by_cases h4 : a = "scan"
          · subst h4
            obtain ⟨hp, hm⟩ := h ha
            obtain ⟨pfx, hpfx⟩ := Option.isSome_iff_exists.mp hp
            cases hmax : request.lookup "max" with
            | none =>
              simp [h1, h2, h3, hmax, hpfx, exceptOk]
            | some m =>
              have hsm := hm m hmax
              obtain ⟨mv, hmv⟩ := Option.isSome_iff_exists.mp hsm
              simp [h1, h2, h3, hmax, hmv, hpfx, exceptOk]
          · simp [h1, h2, h3, h4, exceptOk]

/-- C5 witness: a well-formed scan request returns a Status normally. -/
theorem claim_C5_no_throw_witness :
    exceptOk (DatabasePlugin.call noopBackend
      [("action", "scan"), ("prefix", "k"), ("max", "10")]) = true :=
  claim_C5_no_throw noopBackend
    [("action", "scan"), ("prefix", "k"), ("max", "10")]
    (fun _ => ⟨by decide, fun m hm => by
      rw [show List.lookup "max"
          ([("action", "scan"), ("prefix", "k"), ("max", "10")] :
            List (String × String)) = some "10" from rfl] at hm
      injection hm with hmeq
      subst hmeq
      decide⟩)

/-- C6: for every backend and request, whenever the request has no `action`
key, or has action `put` without a `value` entry, or has an action outside
{get, put, remove, scan}, DatabasePlugin::call returns a failure status
(code 1), appends no entry to the response, and performs no backend
operation (the effect list is empty). -/
theorem claim_C6_protocol_errors (b : DBBackend) (request : PluginRequest)
    (h : request.lookup "action" = none ∨
      (request.lookup "action" = some "put" ∧
        request.lookup "value" = none) ∨
      (∀ a, request.lookup "action" = some a →
        a ≠ "get" ∧ a ≠ "put" ∧ a ≠ "remove" ∧ a ≠ "scan")) :
    ∃ s : Status, DatabasePlugin.call b request = .ok (s, [], []) ∧
      s.code = 1 := by
  unfold DatabasePlugin.call
  rcases h with h | ⟨h1, h2⟩ | h
  · exact ⟨⟨1, "Database plugin must include a request action"⟩,
      by simp [h], rfl⟩
  · exact ⟨⟨1, "Database plugin put action requires a value"⟩,
      by simp [h1, h2], rfl⟩
  · cases ha : request.lookup "action" with
    | none =>
      exact ⟨⟨1, "Database plugin must include a request action"⟩,
        by simp [ha], rfl⟩
    | some a =>
      obtain ⟨hg, hp, hr, hs⟩ := h a ha
      exact ⟨⟨1, "Unknown database plugin action"⟩,
        by simp [ha, hg, hp, hr, hs], rfl⟩

/-- C6 witness: the unknown action `bogus` yields a protocol failure with
an empty response and no backend operation. -/
theorem claim_C6_protocol_errors_witness :
    ∃ s : Status, DatabasePlugin.call noopBackend [("action", "bogus")] =
      .ok (s, [], []) ∧ s.code = 1 :=
  claim_C6_protocol_errors noopBackend [("action", "bogus")]
    (Or.inr (Or.inr (fun a ha => by
      rw [show List.lookup "action"
          ([("action", "bogus")] : List (String × String)) =
          some "bogus" from rfl] at ha
      injection ha with haeq
      subst haeq
      decide)))
